import Mathlib

/-!
Verification of the MySQL proxy core (src/src/lib.rs) against its
specification.  Bytes are modelled as natural numbers (a real byte is
below 256; hypotheses state this where the arithmetic depends on it).
Buffers are lists of bytes together with a cursor, exactly mirroring the
Rust structs.  Fallible operations that index a Rust Vec out of bounds
are modelled with Option, where none marks the panic.
-/

namespace MySqlProxy

/-- Command identifiers, mirroring the Rust enum PacketType. -/
inductive PacketType where
  | ComSleep
  | ComQuit
  | ComInitDb
  | ComQuery
  | ComFieldList
  | ComCreateDb
  | ComDropDb
  | ComRefresh
  | ComShutdown
  | ComStatistics
  | ComProcessInfo
  | ComConnect
  | ComProcessKill
  | ComDebug
  | ComPing
  | ComTime
  | ComDelayedInsert
  | ComChangeUser
  | ComBinlogDump
  | ComTableDump
  | ComConnectOut
  | ComRegisterSlave
  | ComStmtPrepare
  | ComStmtExecute
  | ComStmtSendLongData
  | ComStmtClose
  | ComStmtReset
  | ComDaemon
  | ComBinlogDumpGtid
  | ComResetConnection
deriving DecidableEq, Fintype

/-- A packet is just a wrapper for a byte vector (Rust: struct Packet). -/
structure Packet where
  bytes : List Nat
deriving DecidableEq

/-- Rust fn parse_packet_length: 3 byte little-endian length read from the
first three buffer cells, using shifts and bitwise or exactly as the source:
(header[2] << 16) | (header[1] << 8) | header[0]. -/
def parse_packet_length (header : List Nat) : Nat :=
  (((header.getD 2 0) <<< 16) ||| ((header.getD 1 0) <<< 8)) ||| (header.getD 0 0)

/-- Rust Packet::error_packet.  The payload is 0xff, the code as two
little-endian bytes (write_u16), the marker 0x23, the five state bytes and
the message bytes.  The header is the payload length written as four
little-endian bytes (write_u32), with the last byte popped, then the
sequence id 1 pushed. -/
def Packet.error_packet (code : Nat) (state : List Nat) (msg : List Nat) : Packet :=
  let payload : List Nat :=
    0xff :: ([code % 256, code / 256 % 256] ++ (0x23 :: (state ++ msg)))
  let header4 : List Nat :=
    [payload.length % 256, payload.length / 256 % 256,
     payload.length / 65536 % 256, payload.length / 16777216 % 256]
  let header : List Nat := header4.dropLast ++ [1]
  ⟨header ++ payload⟩

/-- Rust Packet::sequence_id reads self.bytes[3] with no bounds check;
none models the out-of-bounds panic. -/
def Packet.sequence_id (p : Packet) : Option Nat :=
  p.bytes.get? 3

/-- The match over the command byte in Rust Packet::packet_type. -/
def classify_code (b : Nat) : Except String PacketType :=
  match b with
  | 0x00 => .ok .ComSleep
  | 0x01 => .ok .ComQuit
  | 0x02 => .ok .ComInitDb
  | 0x03 => .ok .ComQuery
  | 0x04 => .ok .ComFieldList
  | 0x05 => .ok .ComCreateDb
  | 0x06 => .ok .ComDropDb
  | 0x07 => .ok .ComRefresh
  | 0x08 => .ok .ComShutdown
  | 0x09 => .ok .ComStatistics
  | 0x0a => .ok .ComProcessInfo
  | 0x0b => .ok .ComConnect
  | 0x0c => .ok .ComProcessKill
  | 0x0d => .ok .ComDebug
  | 0x0e => .ok .ComPing
  | 0x0f => .ok .ComTime
  | 0x10 => .ok .ComDelayedInsert
  | 0x11 => .ok .ComChangeUser
  | 0x12 => .ok .ComBinlogDump
  | 0x13 => .ok .ComTableDump
  | 0x14 => .ok .ComConnectOut
  | 0x15 => .ok .ComRegisterSlave
  | 0x16 => .ok .ComStmtPrepare
  | 0x17 => .ok .ComStmtExecute
  | 0x18 => .ok .ComStmtSendLongData
  | 0x19 => .ok .ComStmtClose
  | 0x1a => .ok .ComStmtReset
  | 0x1d => .ok .ComDaemon
  | 0x1e => .ok .ComBinlogDumpGtid
  | 0x1f => .ok .ComResetConnection
  | _ => .error "Invalid packet type"

/-- Rust Packet::packet_type reads self.bytes[4] with no bounds check and
classifies it; none models the out-of-bounds panic on packets shorter
than five bytes. -/
def Packet.packet_type (p : Packet) : Option (Except String PacketType) :=
  match p.bytes.get? 4 with
  | some b => some (classify_code b)
  | none => none

/-- Handlers return a variant of this enum (Rust: enum Action).  The Rust
source declares exactly these three constructors. -/
inductive Action where
  | Forward
  | Mutate (p : Packet)
  | Respond (ps : List Packet)

/-- The handler interface (Rust: trait PacketHandler). -/
structure PacketHandler where
  handle_request : Packet → Action
  handle_response : Packet → Action

/-- Rust struct ConnReader: a read buffer and the count read_pos of valid
bytes at its prefix.  The TcpStream handle carries no data and is dropped
from the model. -/
structure ConnReader where
  read_buf : List Nat
  read_pos : Nat
deriving DecidableEq

/-- Rust ConnReader::new: a 4096 byte zeroed buffer, read_pos = 0. -/
def ConnReader.new : ConnReader :=
  ⟨List.replicate 4096 0, 0⟩

/-- The valid prefix read_buf[0..read_pos) of a reader. -/
def ConnReader.valid (self : ConnReader) : List Nat :=
  self.read_buf.take self.read_pos

/-- One successful socket read delivering chunk into read_buf[read_pos..]
and advancing read_pos (the body of the Ready arm of ConnReader::read, for
a chunk that fits; see ConnReader.read for the bounded variant). -/
def ConnReader.feed (self : ConnReader) (chunk : List Nat) : ConnReader :=
  ⟨self.read_buf.take self.read_pos ++ chunk, self.read_pos + chunk.length⟩

/-- Rust ConnReader::next.  When at least a header is present and the
whole packet of size s = 4 + length is buffered, the first s bytes are
copied out, the remaining valid bytes are shifted down (the copy loop
writes read_buf[i - s] for i in s..read_pos and leaves every later cell
unchanged), and read_pos is decreased by s. -/
def ConnReader.next (self : ConnReader) : Option Packet × ConnReader :=
  if self.read_pos > 3 then
    let l := parse_packet_length self.read_buf
    let s := 4 + l
    if self.read_pos ≥ s then
      let p : Packet := ⟨self.read_buf.take s⟩
      let buf2 := (self.read_buf.drop s).take (self.read_pos - s)
          ++ self.read_buf.drop (self.read_pos - s)
      (some p, ⟨buf2, self.read_pos - s⟩)
    else (none, self)
  else (none, self)

/-- One poll_read observation on the socket underlying a reader. -/
inductive SockRead where
  | readable (avail : List Nat)
  | notReady
deriving DecidableEq

/-- Outcome of ConnReader::read (Poll of the Rust source): the function
never produces Ready, only NotReady or an error. -/
inductive ReadRes where
  | notReady
  | err (msg : String)
deriving DecidableEq

/-- Rust ConnReader::read.  It loops while poll_read is Ready: each pass
reads into read_buf[read_pos..], so at most buffer-capacity minus
read_pos bytes arrive (the buffer is never grown; the source carries a
TODO to ensure capacity first); a zero byte read is reported as the
connection closed error.  readable [] models the peer having closed
(a genuine zero byte read); an exhausted event list models NotReady. -/
def ConnReader.read : ConnReader → List SockRead → ConnReader × ReadRes
  | self, [] => (self, .notReady)
  | self, (.notReady :: _) => (self, .notReady)
  | self, (.readable avail :: rest) =>
      let space := self.read_buf.length - self.read_pos
      let n := min space avail.length
      if n = 0 then (self, .err "connection closed")
      else ConnReader.read
        ⟨self.read_buf.take self.read_pos ++ avail.take n
            ++ self.read_buf.drop (self.read_pos + n),
         self.read_pos + n⟩ rest

/-- Rust struct ConnWriter: a write buffer and the count write_pos of
pending bytes at its prefix. -/
structure ConnWriter where
  write_buf : List Nat
  write_pos : Nat
deriving DecidableEq

/-- Rust ConnWriter::new: a 4096 byte zeroed buffer, write_pos = 0. -/
def ConnWriter.new : ConnWriter :=
  ⟨List.replicate 4096 0, 0⟩

/-- Rust ConnWriter::push copies p.bytes into
write_buf[write_pos .. write_pos + len) by plain indexed stores and adds
len to write_pos.  The buffer is never grown, so when
write_pos + len exceeds the buffer length the store indexes out of
bounds and the program panics; none models that panic. -/
def ConnWriter.push (self : ConnWriter) (p : Packet) : Option ConnWriter :=
  if self.write_pos + p.bytes.length ≤ self.write_buf.length then
    some ⟨self.write_buf.take self.write_pos ++ p.bytes
            ++ self.write_buf.drop (self.write_pos + p.bytes.length),
          self.write_pos + p.bytes.length⟩
  else none

/-!
The pipe.  Pipe::poll makes one pass: read the client socket through the
bounded ConnReader::read, on a read error half-close the server write
side, drain client packets through the handler pushing with the bounded
ConnWriter::push, read the server socket, on a read error half-close
the client write side, drain server packets, then flush both writers.
Because ConnReader::read never returns Ready, the final try_ready chain
always returns at the first entry: the poll yields the client read error
if there was one and NotReady otherwise, so the source loop never
repeats.  A push that indexes out of bounds panics the whole task, so
the poll returns Option with none for that panic.  The two ghost
delivered fields record the bytes each writer has handed to its socket.
-/

/-- The pending bytes write_buf[0..write_pos) of a writer. -/
def ConnWriter.pending (self : ConnWriter) : List Nat :=
  self.write_buf.take self.write_pos

/-- Rust ConnWriter::write against a socket that accepts at most accept
bytes this poll: k = min(accept, write_pos) bytes of the pending prefix
are written out, the unwritten bytes shift down (the loop writes
write_buf[i - k] for i in k..write_pos and leaves later cells unchanged)
and write_pos decreases by k.  Returns the written bytes and the new
writer. -/
def ConnWriter.write (self : ConnWriter) (accept : Nat) : List Nat × ConnWriter :=
  let k := min accept self.write_pos
  (self.write_buf.take k,
   ⟨(self.write_buf.drop k).take (self.write_pos - k)
      ++ self.write_buf.drop (self.write_pos - k),
    self.write_pos - k⟩)

/-- Pushing a list of packets in order (the for loop of the Respond arm);
none when any push panics. -/
def pushAll (w : ConnWriter) : List Packet → Option ConnWriter
  | [] => some w
  | p :: ps =>
      match w.push p with
      | none => none
      | some w2 => pushAll w2 ps

/-- Fuel-indexed reader drain: collect packets by repeated ConnReader::next
until it yields none.  Each extraction removes at least four valid bytes,
so fuel = read_pos always suffices (see ConnReader.drain). -/
def drainAux : Nat → ConnReader → List (List Nat) × ConnReader
  | 0, st => ([], st)
  | fuel + 1, st =>
      match st.next with
      | (none, st2) => ([], st2)
      | (some p, st2) =>
          let r := drainAux fuel st2
          (p.bytes :: r.1, r.2)

/-- Calling ConnReader::next to exhaustion, collecting the packets. -/
def ConnReader.drain (st : ConnReader) : List (List Nat) × ConnReader :=
  drainAux st.read_pos st

/-- Fuel-indexed form of the two while-let drain loops of Pipe::poll: pop
each buffered packet, apply the handler action; Forward pushes the packet
and Mutate its replacement onto the forward-direction writer, Respond
pushes each response packet onto the originating-side writer.  Every
push is the bounded ConnWriter::push, so an out-of-bounds store panics
the loop: none.  Each extraction shrinks read_pos by at least four, so
fuel = read_pos suffices (see drainPackets). -/
def drainPacketsAux : Nat → (Packet → Action) → ConnReader → ConnWriter → ConnWriter →
    Option (ConnReader × ConnWriter × ConnWriter)
  | 0, _, cr, fwd, resp => some (cr, fwd, resp)
  | fuel + 1, act, cr, fwd, resp =>
      match cr.next with
      | (none, cr2) => some (cr2, fwd, resp)
      | (some p, cr2) =>
          match act p with
          | .Forward =>
              match fwd.push p with
              | none => none
              | some fwd2 => drainPacketsAux fuel act cr2 fwd2 resp
          | .Mutate p2 =>
              match fwd.push p2 with
              | none => none
              | some fwd2 => drainPacketsAux fuel act cr2 fwd2 resp
          | .Respond v =>
              match pushAll resp v with
              | none => none
              | some resp2 => drainPacketsAux fuel act cr2 fwd resp2

/-- One direction-drain loop of Pipe::poll. -/
def drainPackets (act : Packet → Action) (cr : ConnReader) (fwd resp : ConnWriter) :
    Option (ConnReader × ConnWriter × ConnWriter) :=
  drainPacketsAux cr.read_pos act cr fwd resp

/-- Result of one Pipe::poll call. -/
inductive PollRes where
  | pending
  | err (msg : String)
deriving DecidableEq

/-- Rust struct Pipe, with two ghost fields recording the bytes each
writer has already written to its socket, and the two half-close flags
set by stream.shutdown(Shutdown::Write). -/
structure Pipe where
  client_reader : ConnReader
  client_writer : ConnWriter
  server_reader : ConnReader
  server_writer : ConnWriter
  client_delivered : List Nat
  server_delivered : List Nat
  client_write_shutdown : Bool
  server_write_shutdown : Bool
deriving DecidableEq

/-- Rust Pipe::new. -/
def Pipe.new : Pipe :=
  ⟨ConnReader.new, ConnWriter.new, ConnReader.new, ConnWriter.new, [], [], false, false⟩

/-- One Pipe::poll call, in source order: client read (through the
bounded ConnReader::read driven by the socket events cin), shutdown of
the server write side on a client read error, request drain, server
read, shutdown of the client write side on a server read error,
response drain, the two writer flushes, then the try_ready chain, which
returns the client read error when there is one and NotReady otherwise.
none is the panic of an out-of-bounds push inside a drain. -/
def Pipe.poll (h : PacketHandler) (st : Pipe) (cin sin : List SockRead)
    (cacc sacc : Nat) : Option (Pipe × PollRes) :=
  match st.client_reader.read cin with
  | (cr2, cres) =>
    let swShut := match cres with
      | .err _ => true
      | .notReady => st.server_write_shutdown
    match drainPackets h.handle_request cr2 st.server_writer st.client_writer with
    | none => none
    | some (cr3, sw2, cw2) =>
      match st.server_reader.read sin with
      | (sr2, sres) =>
        let cwShut := match sres with
          | .err _ => true
          | .notReady => st.client_write_shutdown
        match drainPackets h.handle_response sr2 cw2 sw2 with
        | none => none
        | some (sr3, cw3, sw3) =>
          let cw := cw3.write cacc
          let sw := sw3.write sacc
          let st2 : Pipe :=
            { client_reader := cr3
              client_writer := cw.2
              server_reader := sr3
              server_writer := sw.2
              client_delivered := st.client_delivered ++ cw.1
              server_delivered := st.server_delivered ++ sw.1
              client_write_shutdown := cwShut
              server_write_shutdown := swShut }
          match cres with
          | .err e => some (st2, .err e)
          | .notReady => some (st2, .pending)

/-- Inputs to one Pipe::poll call: the socket events seen by each read
pass and the byte counts each socket accepts from the writers. -/
structure PollIn where
  cin : List SockRead
  sin : List SockRead
  cacc : Nat
  sacc : Nat
deriving DecidableEq

/-- Repeated polling of the pipe task: a poll yielding pending is
re-entered with the next inputs; a poll yielding an error resolves the
task, so the remaining inputs are discarded; a panicking poll aborts
the task: none. -/
def Pipe.run (h : PacketHandler) (st : Pipe) : List PollIn → Option Pipe
  | [] => some st
  | e :: rest =>
      match Pipe.poll h st e.cin e.sin e.cacc e.sacc with
      | none => none
      | some (st2, .pending) => Pipe.run h st2 rest
      | some (st2, .err _) => some st2

/-- The socket events of one read pass delivering the bytes c and then
blocking: no event at all when c is empty (an empty readable would be
the zero-byte read that means the peer closed). -/
def dataEvents (c : List Nat) : List SockRead :=
  if c = [] then [] else [SockRead.readable c]

/-- A poll script consisting only of successful data reads. -/
def dataPolls (script : List (List Nat × List Nat × Nat × Nat)) : List PollIn :=
  script.map (fun e => ⟨dataEvents e.1, dataEvents e.2.1, e.2.2.1, e.2.2.2⟩)

/-!
Bitwise arithmetic bridge: the source computes the packet length with
shifts and bitwise or over disjoint byte ranges, which coincides with
plain positional arithmetic.
-/

theorem two_pow_mul_lor {n a b : Nat} (hb : b < 2 ^ n) :
    ((2 ^ n * a) ||| b) = 2 ^ n * a + b := by
  apply Nat.eq_of_testBit_eq
  intro j
  rw [Nat.testBit_lor, Nat.testBit_mul_pow_two_add a hb j, Nat.testBit_mul_pow_two]
  rcases Nat.lt_or_ge j n with h | h
  · have h2 : ¬ j ≥ n := Nat.not_le.mpr h
    simp [h, h2]
  · have hb2 : b < 2 ^ j := lt_of_lt_of_le hb (Nat.pow_le_pow_right (by norm_num) h)
    have h2 : ¬ j < n := Nat.not_lt.mpr h
    simp [h, h2, Nat.testBit_lt_two_pow hb2]

theorem parse_packet_length_bytes (b0 b1 b2 : Nat) (rest : List Nat)
    (h0 : b0 < 256) (h1 : b1 < 256) (h2 : b2 < 256) :
    parse_packet_length (b0 :: b1 :: b2 :: rest) = b0 + 256 * b1 + 65536 * b2 := by
  unfold parse_packet_length
  simp only [List.getD_cons_zero, List.getD_cons_succ]
  have e2 : (b2 <<< 16) = 2 ^ 16 * b2 := by rw [Nat.shiftLeft_eq]; ring
  have e1 : (b1 <<< 8) = 2 ^ 8 * b1 := by rw [Nat.shiftLeft_eq]; ring
  rw [e2, e1]
  have hA : ((2 ^ 16 * b2) ||| (2 ^ 8 * b1)) = 2 ^ 16 * b2 + 2 ^ 8 * b1 :=
    two_pow_mul_lor (by norm_num; omega)
  rw [hA]
  have e3 : 2 ^ 16 * b2 + 2 ^ 8 * b1 = 2 ^ 8 * (2 ^ 8 * b2 + b1) := by ring
  rw [e3, two_pow_mul_lor (by norm_num; omega)]
  ring_nf

/-- The property stated by the specification for error packets: the
3-byte little-endian length header decodes to 9 + len(msg), the sequence
id byte is 1, payload byte 0 is 0xff, payload bytes 1 and 2 decode
little-endian to the code, payload byte 3 is 0x23, payload bytes 4..9
equal the state and the remaining payload bytes equal the message. -/
def ErrorPacketSpec (code : Nat) (state msg : List Nat) (p : Packet) : Prop :=
  parse_packet_length p.bytes = 9 + msg.length ∧
  p.bytes.getD 3 0 = 1 ∧
  (p.bytes.drop 4).getD 0 0 = 0xff ∧
  (p.bytes.drop 4).getD 1 0 + 256 * ((p.bytes.drop 4).getD 2 0) = code ∧
  (p.bytes.drop 4).getD 3 0 = 0x23 ∧
  ((p.bytes.drop 4).drop 4).take 5 = state ∧
  (p.bytes.drop 4).drop 9 = msg

theorem error_packet_bytes (code : Nat) (state msg : List Nat) (hs : state.length = 5) :
    (Packet.error_packet code state msg).bytes =
      (9 + msg.length) % 256 :: ((9 + msg.length) / 256 % 256) ::
      ((9 + msg.length) / 65536 % 256) :: 1 ::
      0xff :: (code % 256) :: (code / 256 % 256) :: 0x23 :: (state ++ msg) := by
  have hlen : (0xff :: ([code % 256, code / 256 % 256] ++
      (0x23 :: (state ++ msg)))).length = 9 + msg.length := by
    simp [List.length_append, hs]
    omega
  simp only [Packet.error_packet, hlen]
  rfl

/-- C3: error_packet(c, s, m) lays out its bytes exactly as specified. -/
theorem error_packet_spec_holds (code : Nat) (state msg : List Nat)
    (hc : code < 65536) (hs : state.length = 5) (hm : 9 + msg.length < 16777216) :
    ErrorPacketSpec code state msg (Packet.error_packet code state msg) := by
  unfold ErrorPacketSpec
  rw [error_packet_bytes code state msg hs]
  refine ⟨?_, rfl, rfl, ?_, rfl, ?_, ?_⟩
  · rw [parse_packet_length_bytes _ _ _ _ (by omega) (by omega) (by omega)]
    omega
  · show code % 256 + 256 * (code / 256 % 256) = code
    omega
  · show ((state ++ msg).take 5) = state
    rw [List.take_append_of_le_length (by omega), ← hs, List.take_length]
  · show ((state ++ msg).drop 5) = msg
    rw [List.drop_append_of_le_length (by omega), ← hs, List.drop_length, List.nil_append]

/-- C3 witness: the avocado-rejection error packet of the examples. -/
theorem error_packet_spec_witness :
    ErrorPacketSpec 1064 [49, 50, 51, 52, 53] [104, 105]
      (Packet.error_packet 1064 [49, 50, 51, 52, 53] [104, 105]) :=
  error_packet_spec_holds 1064 [49, 50, 51, 52, 53] [104, 105]
    (by norm_num) (by decide) (by norm_num)

/-!
Framing.  A well-formed packet is one whose length agrees with its own
3-byte header; an incomplete buffer is one from which ConnReader::next
can extract nothing.
-/

/-- A well-formed wire packet: at least a header, and total length equal
to 4 plus the payload length declared in the header. -/
def WFpacket (p : List Nat) : Prop :=
  4 ≤ p.length ∧ p.length = 4 + parse_packet_length p

instance (p : List Nat) : Decidable (WFpacket p) := by
  unfold WFpacket
  infer_instance

/-- A byte sequence that does not yet contain a complete packet. -/
def Incomplete (r : List Nat) : Prop :=
  r.length < 4 ∨ r.length < 4 + parse_packet_length r

/-- The residual r is what has arrived of the packet list rest: nothing
remains and the residual is empty, or the residual is a proper prefix of
the first remaining packet. -/
def Rem (rest : List (List Nat)) (r : List Nat) : Prop :=
  (rest = [] ∧ r = []) ∨
    ∃ q qs u, rest = q :: qs ∧ r.length < q.length ∧ r ++ u = q

theorem parse_take3 {l1 l2 : List Nat} (h : l1.take 3 = l2.take 3) :
    parse_packet_length l1 = parse_packet_length l2 := by
  have hg : ∀ i, i < 3 → l1.getD i 0 = l2.getD i 0 := by
    intro i hi
    rw [List.getD_eq_getElem?_getD, List.getD_eq_getElem?_getD]
    have e1 : l1[i]? = (l1.take 3)[i]? := by rw [List.getElem?_take, if_pos hi]
    have e2 : l2[i]? = (l2.take 3)[i]? := by rw [List.getElem?_take, if_pos hi]
    rw [e1, e2, h]
  unfold parse_packet_length
  rw [hg 0 (by omega), hg 1 (by omega), hg 2 (by omega)]

theorem valid_length (st : ConnReader) (hle : st.read_pos ≤ st.read_buf.length) :
    st.valid.length = st.read_pos := by
  simp [ConnReader.valid, hle]

theorem feed_valid (st : ConnReader) (c : List Nat)
    (hle : st.read_pos ≤ st.read_buf.length) :
    (st.feed c).valid = st.valid ++ c ∧
    (st.feed c).read_pos ≤ (st.feed c).read_buf.length := by
  have hl : (st.read_buf.take st.read_pos ++ c).length = st.read_pos + c.length := by
    simp [hle]
  constructor
  · show (st.read_buf.take st.read_pos ++ c).take (st.read_pos + c.length) = _
    rw [List.take_of_length_le (by rw [hl])]
    rfl
  · show st.read_pos + c.length ≤ (st.read_buf.take st.read_pos ++ c).length
    rw [hl]

theorem parse_valid (st : ConnReader) (h3 : 3 ≤ st.read_pos) :
    parse_packet_length st.valid = parse_packet_length st.read_buf := by
  apply parse_take3
  show (st.read_buf.take st.read_pos).take 3 = st.read_buf.take 3
  rw [List.take_take, Nat.min_eq_left h3]

theorem next_none_short (st : ConnReader) (h : st.read_pos ≤ 3) :
    st.next = (none, st) := by
  unfold ConnReader.next
  rw [if_neg (by omega)]

theorem next_none_incomplete (st : ConnReader) (h3 : 3 < st.read_pos)
    (h : st.read_pos < 4 + parse_packet_length st.read_buf) :
    st.next = (none, st) := by
  unfold ConnReader.next
  rw [if_pos h3, if_neg (by omega)]

theorem next_some (st : ConnReader) (h3 : 3 < st.read_pos)
    (h : 4 + parse_packet_length st.read_buf ≤ st.read_pos) :
    st.next = (some ⟨st.read_buf.take (4 + parse_packet_length st.read_buf)⟩,
      ⟨(st.read_buf.drop (4 + parse_packet_length st.read_buf)).take
          (st.read_pos - (4 + parse_packet_length st.read_buf))
        ++ st.read_buf.drop (st.read_pos - (4 + parse_packet_length st.read_buf)),
       st.read_pos - (4 + parse_packet_length st.read_buf)⟩) := by
  unfold ConnReader.next
  rw [if_pos h3, if_pos h]

theorem next_some_valid (st : ConnReader) (hle : st.read_pos ≤ st.read_buf.length)
    (h3 : 3 < st.read_pos)
    (h : 4 + parse_packet_length st.read_buf ≤ st.read_pos) :
    (st.next).1 = some ⟨st.valid.take (4 + parse_packet_length st.read_buf)⟩ ∧
    (st.next).2.valid = st.valid.drop (4 + parse_packet_length st.read_buf) ∧
    (st.next).2.read_pos = st.read_pos - (4 + parse_packet_length st.read_buf) ∧
    (st.next).2.read_pos ≤ (st.next).2.read_buf.length := by
  rw [next_some st h3 h]
  set S := 4 + parse_packet_length st.read_buf with hS
  have htake : st.valid.take S = st.read_buf.take S := by
    show (st.read_buf.take st.read_pos).take S = st.read_buf.take S
    rw [List.take_take, Nat.min_eq_left h]
  refine ⟨by rw [htake], ?_, rfl, ?_⟩
  · show ((st.read_buf.drop S).take (st.read_pos - S)
        ++ st.read_buf.drop (st.read_pos - S)).take (st.read_pos - S)
      = (st.read_buf.take st.read_pos).drop S
    have hlen : ((st.read_buf.drop S).take (st.read_pos - S)).length
        = st.read_pos - S := by
      simp [List.length_drop]
      omega
    rw [List.take_append_of_le_length (by rw [hlen]), List.take_take,
      Nat.min_self, List.drop_take]
  · show st.read_pos - S
      ≤ ((st.read_buf.drop S).take (st.read_pos - S)
          ++ st.read_buf.drop (st.read_pos - S)).length
    simp [List.length_drop]
    omega

theorem Rem.incomplete {rest : List (List Nat)} {r : List Nat}
    (hr : Rem rest r) (hwf : ∀ p ∈ rest, WFpacket p) : Incomplete r := by
  rcases hr with ⟨_, rfl⟩ | ⟨q, qs, u, rfl, hlt, hq⟩
  · left
    simp
  · rcases Nat.lt_or_ge r.length 4 with h4 | h4
    · exact Or.inl h4
    · right
      obtain ⟨hq1, hq2⟩ := hwf q (by simp)
      have ht3 : r.take 3 = q.take 3 := by
        rw [← hq, List.take_append_of_le_length (by omega)]
      rw [parse_take3 ht3]
      omega

theorem next_some_buf_length (st : ConnReader)
    (hle : st.read_pos ≤ st.read_buf.length) (h3 : 3 < st.read_pos)
    (hS : 4 + parse_packet_length st.read_buf ≤ st.read_pos) :
    (st.next).2.read_buf.length = st.read_buf.length := by
  rw [next_some st h3 hS]
  simp [List.length_append, List.length_take, List.length_drop]
  omega

theorem drainAux_spec : ∀ (ps : List (List Nat)) (fuel : Nat) (st : ConnReader)
    (r : List Nat), st.read_pos ≤ fuel → st.read_pos ≤ st.read_buf.length →
    (∀ p ∈ ps, WFpacket p) → Incomplete r → st.valid = ps.flatten ++ r →
    (drainAux fuel st).1 = ps ∧ (drainAux fuel st).2.valid = r ∧
    (drainAux fuel st).2.read_pos ≤ (drainAux fuel st).2.read_buf.length ∧
    (drainAux fuel st).2.read_buf.length = st.read_buf.length := by
  intro ps
  induction ps with
  | nil =>
    intro fuel st r hfuel hle _ hinc hval
    simp only [List.flatten_nil, List.nil_append] at hval
    have hpos : st.read_pos = r.length := by rw [← valid_length st hle, hval]
    have hnone : ∀ f, drainAux f st = ([], st) := by
      intro f
      cases f with
      | zero => rfl
      | succ f =>
        have hn : st.next = (none, st) := by
          rcases hinc with h4 | hfull
          · exact next_none_short st (by omega)
          · rcases Nat.lt_or_ge st.read_pos 4 with hlt | hge
            · exact next_none_short st (by omega)
            · refine next_none_incomplete st (by omega) ?_
              have hp : parse_packet_length st.read_buf = parse_packet_length r := by
                rw [← hval]
                exact (parse_valid st (by omega)).symm
              omega
        simp [drainAux, hn]
    rw [hnone fuel]
    exact ⟨rfl, hval, hle, rfl⟩
  | cons p ps2 ih =>
    intro fuel st r hfuel hle hwf hinc hval
    obtain ⟨hwp1, hwp2⟩ := hwf p (by simp)
    have hlenv : st.valid.length = st.read_pos := valid_length st hle
    have hvl : st.valid.length = p.length + ps2.flatten.length + r.length := by
      rw [hval, List.flatten_cons]
      simp [List.length_append]
      try omega
    have hpos4 : 4 ≤ st.read_pos := by omega
    have ht3 : st.valid.take 3 = p.take 3 := by
      rw [hval, List.flatten_cons, List.append_assoc,
        List.take_append_of_le_length (by omega)]
    have hparse : parse_packet_length st.read_buf = parse_packet_length p := by
      rw [← parse_valid st (by omega)]
      exact parse_take3 ht3
    have hS : 4 + parse_packet_length st.read_buf = p.length := by
      rw [hparse]
      omega
    have hSle : 4 + parse_packet_length st.read_buf ≤ st.read_pos := by omega
    obtain ⟨h1, h2, h3, h4⟩ := next_some_valid st hle (by omega) hSle
    cases fuel with
    | zero => omega
    | succ f =>
      have hfull := next_some st (by omega) hSle
      have hbytes : st.read_buf.take (4 + parse_packet_length st.read_buf) = p := by
        have : st.valid.take (4 + parse_packet_length st.read_buf) = p := by
          rw [hval, hS, List.flatten_cons, List.append_assoc,
            List.take_append_of_le_length (by omega), List.take_length]
        rw [← this]
        show _ = (st.read_buf.take st.read_pos).take _
        rw [List.take_take, Nat.min_eq_left hSle]
      have hval2 : (st.next).2.valid = ps2.flatten ++ r := by
        rw [h2, hval, hS, List.flatten_cons, List.append_assoc, List.drop_left]
      have hfuel2 : (st.next).2.read_pos ≤ f := by
        rw [h3]
        omega
      obtain ⟨ih1, ih2, ih3, ih4⟩ := ih f (st.next).2 r hfuel2 h4
        (fun q hq => hwf q (by simp [hq])) hinc hval2
      have hblen : (st.next).2.read_buf.length = st.read_buf.length :=
        next_some_buf_length st hle (by omega) hSle
      have hstep : drainAux (f + 1) st =
          (p :: (drainAux f (st.next).2).1, (drainAux f (st.next).2).2) := by
        simp only [drainAux, hfull, hbytes]
      rw [hstep]
      exact ⟨by rw [ih1], ih2, ih3, by rw [ih4, hblen]⟩

theorem rem_nil (rest : List (List Nat)) (hwf : ∀ p ∈ rest, WFpacket p) :
    Rem rest [] := by
  cases rest with
  | nil => exact Or.inl ⟨rfl, rfl⟩
  | cons q qs =>
    obtain ⟨h1, _⟩ := hwf q (by simp)
    have hq : 0 < q.length := by omega
    exact Or.inr ⟨q, qs, q, rfl, by simpa using hq, by simp⟩

theorem append_split_le {x t q y : List Nat} (h : x ++ t = q ++ y)
    (hle : x.length ≤ q.length) : ∃ u, x ++ u = q := by
  refine ⟨t.take (q.length - x.length), ?_⟩
  have h2 : (x ++ t).take q.length = x ++ t.take (q.length - x.length) := by
    rw [List.take_append_eq_append_take, List.take_of_length_le hle]
  rw [← h2, h, List.take_append_of_le_length (le_refl _), List.take_length]

theorem decomp_prefix : ∀ (rest : List (List Nat)) (x t : List Nat),
    (∀ p ∈ rest, WFpacket p) → x ++ t = rest.flatten →
    ∃ d rest2 r, rest = d ++ rest2 ∧ x = d.flatten ++ r ∧ Rem rest2 r := by
  intro rest
  induction rest with
  | nil =>
    intro x t _ h
    simp only [List.flatten_nil] at h
    obtain ⟨hx, _⟩ := List.append_eq_nil.mp h
    exact ⟨[], [], [], by simp, by simp [hx], Or.inl ⟨rfl, rfl⟩⟩
  | cons q qs ih =>
    intro x t hwf h
    rw [List.flatten_cons] at h
    rcases Nat.lt_or_ge x.length q.length with hlt | hge
    · obtain ⟨u, hu⟩ := append_split_le h (le_of_lt hlt)
      exact ⟨[], q :: qs, x, by simp, by simp,
        Or.inr ⟨q, qs, u, rfl, hlt, hu⟩⟩
    · obtain ⟨u, hu⟩ := append_split_le h.symm hge
      have hx : x = q ++ u := hu.symm
      have ht : u ++ t = qs.flatten := by
        have h0 : q ++ (u ++ t) = q ++ qs.flatten := by
          rw [← List.append_assoc, ← hx]
          exact h
        exact List.append_cancel_left h0
      obtain ⟨d, rest2, r, hd, hx2, hrem⟩ :=
        ih u t (fun p hp => hwf p (by simp [hp])) ht
      exact ⟨q :: d, rest2, r, by simp [hd], by
        rw [hx, hx2, List.flatten_cons, List.append_assoc], hrem⟩

/-- Feeding a chunk into the reader and draining it, repeatedly: the
round-trip exercised by the chunked-framing law. -/
def processChunks : ConnReader → List (List Nat) → List (List Nat) × ConnReader
  | st, [] => ([], st)
  | st, c :: cs =>
      let d := (st.feed c).drain
      let rest := processChunks d.2 cs
      (d.1 ++ rest.1, rest.2)

theorem processChunks_spec : ∀ (chunks rest : List (List Nat)) (r : List Nat)
    (st : ConnReader), st.read_pos ≤ st.read_buf.length →
    (∀ p ∈ rest, WFpacket p) → Rem rest r → st.valid = r →
    r ++ chunks.flatten = rest.flatten →
    (processChunks st chunks).1 = rest := by
  intro chunks
  induction chunks with
  | nil =>
    intro rest r st _ _ hrem hval hall
    simp only [List.flatten_nil, List.append_nil] at hall
    rcases hrem with ⟨hrest, _⟩ | ⟨q, qs, u, hrest, hlt, hq⟩
    · rw [hrest]
      rfl
    · exfalso
      have hlen : r.length = q.length + qs.flatten.length := by
        rw [hall, hrest, List.flatten_cons, List.length_append]
      omega
  | cons c cs ih =>
    intro rest r st hle hwf hrem hval hall
    obtain ⟨hfv, hfle⟩ := feed_valid st c hle
    rw [hval] at hfv
    rw [List.flatten_cons] at hall
    have hx : (r ++ c) ++ cs.flatten = rest.flatten := by
      rw [List.append_assoc]
      exact hall
    obtain ⟨d, rest2, r2, hd, hx2, hrem2⟩ := decomp_prefix rest (r ++ c) cs.flatten hwf hx
    have hwf2 : ∀ p ∈ rest2, WFpacket p := by
      intro p hp
      exact hwf p (by rw [hd]; simp [hp])
    have hwfd : ∀ p ∈ d, WFpacket p := by
      intro p hp
      exact hwf p (by rw [hd]; simp [hp])
    have hinc2 : Incomplete r2 := Rem.incomplete hrem2 hwf2
    obtain ⟨hd1, hd2, hd3, _⟩ := drainAux_spec d (st.feed c).read_pos (st.feed c) r2
      (le_refl _) hfle hwfd hinc2 (by rw [hfv, hx2])
    have hall2 : r2 ++ cs.flatten = rest2.flatten := by
      have h0 : d.flatten ++ (r2 ++ cs.flatten) = d.flatten ++ rest2.flatten := by
        rw [← List.append_assoc, ← hx2, hx, hd, List.flatten_append]
      exact List.append_cancel_left h0
    have hih := ih rest2 r2 ((st.feed c).drain).2 hd3 hwf2 hrem2 hd2 hall2
    show ((st.feed c).drain).1 ++ (processChunks ((st.feed c).drain).2 cs).1 = rest
    rw [hih, hd, ← hd1]
    rfl

/-- C1: feeding the concatenation of well-formed packets to a fresh
reader in arbitrary chunks and calling next to exhaustion after each
chunk yields exactly the original packets in order. -/
theorem chunked_framing_roundtrip (ps chunks : List (List Nat))
    (hwf : ∀ p ∈ ps, WFpacket p) (hj : chunks.flatten = ps.flatten) :
    (processChunks ConnReader.new chunks).1 = ps := by
  apply processChunks_spec chunks ps [] ConnReader.new
  · exact Nat.zero_le _
  · exact hwf
  · exact rem_nil ps hwf
  · rfl
  · simpa using hj

/-- C1 witness: a ComPing packet and an empty-payload packet, delivered
in three odd-sized chunks, are reassembled exactly. -/
theorem chunked_framing_roundtrip_witness :
    (processChunks ConnReader.new [[1, 0], [0, 0, 14, 0, 0], [0, 9]]).1
      = [[1, 0, 0, 0, 14], [0, 0, 0, 9]] :=
  chunked_framing_roundtrip [[1, 0, 0, 0, 14], [0, 0, 0, 9]]
    [[1, 0], [0, 0, 14, 0, 0], [0, 9]] (by decide) (by decide)

/-- C9: the frame effect of one ConnReader::next call, with S = 4 + L
and L the 3-byte little-endian length at the buffer head: an incomplete
buffer returns none and leaves the state untouched; a complete one
returns the first S bytes, decreases read_pos by S, and the new valid
prefix equals the old bytes S..read_pos. -/
theorem next_frame_effect (st : ConnReader)
    (hle : st.read_pos ≤ st.read_buf.length) :
    ((st.read_pos < 4 ∨ st.read_pos < 4 + parse_packet_length st.read_buf) →
      st.next = (none, st)) ∧
    (4 ≤ st.read_pos → 4 + parse_packet_length st.read_buf ≤ st.read_pos →
      (st.next).1 = some ⟨st.read_buf.take (4 + parse_packet_length st.read_buf)⟩ ∧
      (st.next).2.read_pos = st.read_pos - (4 + parse_packet_length st.read_buf) ∧
      (st.next).2.read_buf.take ((st.next).2.read_pos) =
        (st.read_buf.drop (4 + parse_packet_length st.read_buf)).take
          (st.read_pos - (4 + parse_packet_length st.read_buf))) := by
  constructor
  · intro h
    rcases h with h | h
    · exact next_none_short st (by omega)
    · rcases Nat.lt_or_ge st.read_pos 4 with h4 | h4
      · exact next_none_short st (by omega)
      · exact next_none_incomplete st (by omega) h
  · intro h4 hS
    obtain ⟨h1, h2, h3, _⟩ := next_some_valid st hle (by omega) hS
    refine ⟨?_, h3, ?_⟩
    · rw [h1]
      have : st.valid.take (4 + parse_packet_length st.read_buf)
          = st.read_buf.take (4 + parse_packet_length st.read_buf) := by
        show (st.read_buf.take st.read_pos).take _ = _
        rw [List.take_take, Nat.min_eq_left hS]
      rw [this]
    · rw [h3]
      have hv2 : (st.next).2.valid =
          st.valid.drop (4 + parse_packet_length st.read_buf) := h2
      unfold ConnReader.valid at hv2
      rw [h3] at hv2
      rw [hv2]
      show (st.read_buf.take st.read_pos).drop _ = _
      rw [List.drop_take]

/-- C9 witness: a reader holding one 5-byte packet and one extra byte. -/
theorem next_frame_effect_witness :
    (ConnReader.next ⟨[1, 0, 0, 7, 9, 42], 6⟩).1 = some ⟨[1, 0, 0, 7, 9]⟩ ∧
    (ConnReader.next ⟨[1, 0, 0, 7, 9, 42], 6⟩).2.read_pos = 1 ∧
    (ConnReader.next ⟨[1, 0, 0, 7, 9, 42], 6⟩).2.read_buf.take 1 = [42] := by
  have h := (next_frame_effect ⟨[1, 0, 0, 7, 9, 42], 6⟩ (by decide)).2
    (by decide) (by decide)
  exact ⟨h.1, h.2.1, by
    have := h.2.2
    rw [h.2.1] at this
    exact this⟩

/-!
Packet classification.
-/

deriving instance DecidableEq for Except

/-- The command-code table of the specification (section 6). -/
def commandCodes : List (Nat × PacketType) :=
  [(0x00, .ComSleep), (0x01, .ComQuit), (0x02, .ComInitDb), (0x03, .ComQuery),
   (0x04, .ComFieldList), (0x05, .ComCreateDb), (0x06, .ComDropDb),
   (0x07, .ComRefresh), (0x08, .ComShutdown), (0x09, .ComStatistics),
   (0x0a, .ComProcessInfo), (0x0b, .ComConnect), (0x0c, .ComProcessKill),
   (0x0d, .ComDebug), (0x0e, .ComPing), (0x0f, .ComTime),
   (0x10, .ComDelayedInsert), (0x11, .ComChangeUser), (0x12, .ComBinlogDump),
   (0x13, .ComTableDump), (0x14, .ComConnectOut), (0x15, .ComRegisterSlave),
   (0x16, .ComStmtPrepare), (0x17, .ComStmtExecute), (0x18, .ComStmtSendLongData),
   (0x19, .ComStmtClose), (0x1a, .ComStmtReset), (0x1d, .ComDaemon),
   (0x1e, .ComBinlogDumpGtid), (0x1f, .ComResetConnection)]

/-- C8: for a packet with a command byte b, classification succeeds with
exactly the tabulated command when (b, t) is in the table, and yields the
Invalid packet type error exactly when b is 0x1b, 0x1c or at least 0x20.
The error is an ordinary return value of packet_type, which neither
ConnReader::next nor Pipe::poll ever calls, so it cannot stop framing. -/
theorem packet_type_classification (p : Packet) (b : Nat)
    (hb : p.bytes.get? 4 = some b) :
    (∀ t : PacketType, p.packet_type = some (.ok t) ↔ (b, t) ∈ commandCodes) ∧
    (p.packet_type = some (.error "Invalid packet type") ↔
      (b = 0x1b ∨ b = 0x1c ∨ 0x20 ≤ b)) := by
  have hpt : p.packet_type = some (classify_code b) := by
    unfold Packet.packet_type
    rw [hb]
  rw [hpt]
  rcases Nat.lt_or_ge b 32 with hlt | hge
  · interval_cases b <;> decide
  · obtain ⟨k, rfl⟩ : ∃ k, b = k + 32 := ⟨b - 32, by omega⟩
    have hcl : classify_code (k + 32) = .error "Invalid packet type" := rfl
    rw [hcl]
    constructor
    · intro t
      constructor
      · intro h
        exact absurd h (by simp)
      · intro hmem
        exfalso
        have hfst : (k + 32, t).1 ∈ commandCodes.map Prod.fst :=
          List.mem_map_of_mem Prod.fst hmem
        simp [commandCodes] at hfst
        try omega
    · exact iff_of_true rfl (Or.inr (Or.inr (by omega)))

/-- C8 witness: byte 0x03 classifies as ComQuery. -/
theorem packet_type_classification_witness :
    Packet.packet_type ⟨[1, 0, 0, 0, 3]⟩ = some (.ok .ComQuery) ∧
    ((3 : Nat), PacketType.ComQuery) ∈ commandCodes :=
  ⟨((packet_type_classification ⟨[1, 0, 0, 0, 3]⟩ 3 rfl).1 PacketType.ComQuery).mpr
    (by decide), by decide⟩

/-- C10: packet_type reads byte index 4 unconditionally, so it is defined
exactly on packets of length at least five, and sequence_id reads byte
index 3, so it is defined exactly on packets of length at least four; on
the valid empty-payload packet the classification is the out-of-bounds
panic, modelled by none. -/
theorem packet_type_partiality :
    (∀ p : Packet, p.packet_type = none ↔ p.bytes.length < 5) ∧
    (∀ p : Packet, p.sequence_id = none ↔ p.bytes.length < 4) ∧
    Packet.packet_type ⟨[0, 0, 0, 0]⟩ = none := by
  refine ⟨?_, ?_, rfl⟩
  · intro p
    have hiff : p.packet_type = none ↔ p.bytes.get? 4 = none := by
      unfold Packet.packet_type
      cases hg : p.bytes.get? 4 with
      | none => simp
      | some b => simp
    rw [hiff, List.get?_eq_none]
    omega
  · intro p
    unfold Packet.sequence_id
    rw [List.get?_eq_none]
    omega

/-!
The Action type and the writer and reader buffer bugs.
-/

/-- C7 evidence: every value of the Action type declared by the source is
Forward, a Mutate, or a Respond; the source enum has no fourth variant,
although the crate example returns Action::Error and the specification
describes Error as expanded into Respond at the call site. -/
theorem action_three_variants :
    ∀ a : Action, a = Action.Forward ∨ (∃ p, a = Action.Mutate p) ∨
      (∃ v, a = Action.Respond v) := by
  intro a
  cases a with
  | Forward => exact Or.inl rfl
  | Mutate p => exact Or.inr (Or.inl ⟨p, rfl⟩)
  | Respond v => exact Or.inr (Or.inr ⟨v, rfl⟩)

theorem push_oob (buf : List Nat) (pos : Nat) (p : Packet)
    (h : ¬ (pos + p.bytes.length ≤ buf.length)) :
    ConnWriter.push ⟨buf, pos⟩ p = none := by
  unfold ConnWriter.push
  exact if_neg h

theorem push_ok (buf : List Nat) (pos : Nat) (p : Packet)
    (h : pos + p.bytes.length ≤ buf.length) :
    ConnWriter.push ⟨buf, pos⟩ p =
      some ⟨buf.take pos ++ p.bytes ++ buf.drop (pos + p.bytes.length),
        pos + p.bytes.length⟩ := by
  unfold ConnWriter.push
  exact if_pos h

/-- C5 evidence: ConnWriter::push never grows the buffer.  Pushing a
4097-byte packet into a fresh 4096-byte writer indexes out of bounds
(the modelled panic), while an in-capacity push does append at write_pos
and advance it. -/
theorem push_no_growth :
    ConnWriter.push ConnWriter.new ⟨List.replicate 4097 7⟩ = none ∧
    ConnWriter.push ConnWriter.new ⟨[9, 9]⟩ =
      some ⟨9 :: 9 :: List.replicate 4094 0, 2⟩ := by
  constructor
  · exact push_oob _ _ _
      (by rw [List.length_replicate, List.length_replicate]; omega)
  · rw [show ConnWriter.new = ⟨List.replicate 4096 0, 0⟩ from rfl,
      push_ok _ _ _ (by rw [List.length_replicate]; norm_num),
      List.take_zero, List.drop_replicate]
    rfl

theorem read_space_zero (st : ConnReader) (avail : List Nat)
    (rest : List SockRead) (hfull : st.read_buf.length - st.read_pos = 0) :
    ConnReader.read st (SockRead.readable avail :: rest)
      = (st, .err "connection closed") := by
  rw [ConnReader.read]
  rw [hfull]
  simp

/-- C6 evidence: ConnReader::read does not grow a full buffer.  With
read_pos equal to the buffer length and the peer readable with one
pending byte (peer open), the read into the empty slice returns zero
bytes and the reader reports the connection closed error. -/
theorem read_full_buffer_spurious_close :
    ConnReader.read ⟨List.replicate 4096 0, 4096⟩ [SockRead.readable [7]]
      = (⟨List.replicate 4096 0, 4096⟩, ReadRes.err "connection closed") :=
  read_space_zero _ _ _ (by rw [List.length_replicate]; rfl)

/-!
Pipe semantics.
-/

theorem rem_forces_nil {rest : List (List Nat)} {r : List Nat}
    (hrem : Rem rest r) (hall : r = rest.flatten) : rest = [] ∧ r = [] := by
  rcases hrem with ⟨h1, h2⟩ | ⟨q, qs, u, hrest, hlt, _⟩
  · exact ⟨h1, h2⟩
  · exfalso
    have : r.length = q.length + qs.flatten.length := by
      rw [hall, hrest, List.flatten_cons, List.length_append]
    omega

/-- A handler that forwards every packet in both directions. -/
def forwardHandler : PacketHandler :=
  ⟨fun _ => .Forward, fun _ => .Forward⟩

theorem read_nil (st : ConnReader) : st.read [] = (st, .notReady) := rfl

theorem read_peer_closed (st : ConnReader) (rest : List SockRead) :
    st.read (SockRead.readable [] :: rest) = (st, .err "connection closed") := by
  rw [ConnReader.read]
  simp

/-- The reader state after one successful bounded socket read of the
bytes c (the state ConnReader::read reaches when c fits the buffer). -/
def ConnReader.fill (st : ConnReader) (c : List Nat) : ConnReader :=
  ⟨st.read_buf.take st.read_pos ++ c ++ st.read_buf.drop (st.read_pos + c.length),
   st.read_pos + c.length⟩

theorem fill_nil (st : ConnReader) : st.fill [] = st := by
  cases st with
  | mk buf pos =>
    simp [ConnReader.fill, List.take_append_drop]

theorem fill_pos (st : ConnReader) (c : List Nat) :
    (st.fill c).read_pos = st.read_pos + c.length := rfl

theorem fill_buf_length (st : ConnReader) (c : List Nat)
    (hle : st.read_pos ≤ st.read_buf.length)
    (hfit : st.read_pos + c.length ≤ st.read_buf.length) :
    (st.fill c).read_buf.length = st.read_buf.length := by
  show (st.read_buf.take st.read_pos ++ c
      ++ st.read_buf.drop (st.read_pos + c.length)).length = _
  simp [List.length_append, List.length_take, List.length_drop]
  omega

theorem fill_le (st : ConnReader) (c : List Nat)
    (hle : st.read_pos ≤ st.read_buf.length)
    (hfit : st.read_pos + c.length ≤ st.read_buf.length) :
    (st.fill c).read_pos ≤ (st.fill c).read_buf.length := by
  rw [fill_pos, fill_buf_length st c hle hfit]
  exact hfit

theorem fill_valid (st : ConnReader) (c : List Nat)
    (hle : st.read_pos ≤ st.read_buf.length)
    (hfit : st.read_pos + c.length ≤ st.read_buf.length) :
    (st.fill c).valid = st.valid ++ c := by
  show ((st.read_buf.take st.read_pos ++ c)
      ++ st.read_buf.drop (st.read_pos + c.length)).take (st.read_pos + c.length)
    = st.read_buf.take st.read_pos ++ c
  have hl : (st.read_buf.take st.read_pos ++ c).length = st.read_pos + c.length := by
    simp [List.length_append, List.length_take]
    omega
  rw [List.take_append_of_le_length (by rw [hl]), ← hl, List.take_length]

theorem read_one_readable (st : ConnReader) (avail : List Nat)
    (hne : avail ≠ []) (hfit : st.read_pos + avail.length ≤ st.read_buf.length) :
    st.read [SockRead.readable avail] = (st.fill avail, .notReady) := by
  rw [ConnReader.read]
  have hn : min (st.read_buf.length - st.read_pos) avail.length = avail.length := by
    omega
  rw [hn, List.take_length, if_neg (by simp [hne]), read_nil]
  rfl

theorem read_dataEvents (st : ConnReader) (c : List Nat)
    (hfit : st.read_pos + c.length ≤ st.read_buf.length) :
    st.read (dataEvents c) = (st.fill c, .notReady) := by
  by_cases hc : c = []
  · rw [hc, dataEvents, if_pos rfl, read_nil, fill_nil]
  · rw [dataEvents, if_neg hc]
    exact read_one_readable st c hc hfit

theorem pending_pos_zero (w : ConnWriter) (h : w.write_pos = 0) :
    w.pending = [] := by
  rw [ConnWriter.pending, h, List.take_zero]

theorem write_all (w : ConnWriter) (accept : Nat) (hacc : w.write_pos ≤ accept) :
    w.write accept = (w.pending, ⟨w.write_buf, 0⟩) := by
  unfold ConnWriter.write
  have hk : min accept w.write_pos = w.write_pos := by omega
  rw [hk]
  simp [ConnWriter.pending]

theorem write_pos_zero (w : ConnWriter) (accept : Nat) (h : w.write_pos = 0) :
    w.write accept = ([], w) := by
  rw [write_all w accept (by omega), pending_pos_zero w h]
  cases w with
  | mk buf pos =>
    simp at h
    rw [h]

theorem push_props (w : ConnWriter) (p : Packet)
    (hfit : w.write_pos + p.bytes.length ≤ w.write_buf.length) :
    ∃ w2, w.push p = some w2 ∧ w2.pending = w.pending ++ p.bytes ∧
      w2.write_pos = w.write_pos + p.bytes.length ∧
      w2.write_buf.length = w.write_buf.length := by
  cases w with
  | mk buf pos =>
    simp only at hfit
    refine ⟨_, push_ok buf pos p hfit, ?_, rfl, ?_⟩
    · show ((buf.take pos ++ p.bytes)
          ++ buf.drop (pos + p.bytes.length)).take (pos + p.bytes.length)
        = buf.take pos ++ p.bytes
      have hl : (buf.take pos ++ p.bytes).length = pos + p.bytes.length := by
        simp [List.length_append, List.length_take]
        omega
      rw [List.take_append_of_le_length (by rw [hl]), ← hl, List.take_length]
    · show (buf.take pos ++ p.bytes ++ buf.drop (pos + p.bytes.length)).length
        = buf.length
      simp [List.length_append, List.length_take, List.length_drop]
      omega

theorem drain_next_none (st : ConnReader) (h : st.next = (none, st)) :
    ∀ (fuel : Nat) (act : Packet → Action) (fwd resp : ConnWriter),
    drainPacketsAux fuel act st fwd resp = some (st, fwd, resp) := by
  intro fuel act fwd resp
  cases fuel with
  | zero => rfl
  | succ f => simp [drainPacketsAux, h]

theorem drain_pos_zero (act : Packet → Action) (cr : ConnReader)
    (fwd resp : ConnWriter) (h : cr.read_pos = 0) :
    drainPackets act cr fwd resp = some (cr, fwd, resp) := by
  unfold drainPackets
  rw [h]
  rfl

theorem drainPacketsAux_forward_bounded (act : Packet → Action)
    (hact : ∀ p, act p = Action.Forward) :
    ∀ (fuel : Nat) (cr : ConnReader) (fwd resp : ConnWriter),
    fwd.write_pos + (drainAux fuel cr).1.flatten.length ≤ fwd.write_buf.length →
    ∃ fwd2, drainPacketsAux fuel act cr fwd resp
        = some ((drainAux fuel cr).2, fwd2, resp)
      ∧ fwd2.pending = fwd.pending ++ (drainAux fuel cr).1.flatten
      ∧ fwd2.write_pos = fwd.write_pos + (drainAux fuel cr).1.flatten.length
      ∧ fwd2.write_buf.length = fwd.write_buf.length := by
  intro fuel
  induction fuel with
  | zero =>
    intro cr fwd resp _
    exact ⟨fwd, rfl, by simp [drainAux], by simp [drainAux], rfl⟩
  | succ f ih =>
    intro cr fwd resp hfit
    rcases hn : cr.next with ⟨op, cr2⟩
    cases op with
    | none =>
      refine ⟨fwd, ?_, ?_, ?_, rfl⟩
      · simp [drainPacketsAux, drainAux, hn]
      · simp [drainAux, hn]
      · simp [drainAux, hn]
    | some p =>
      have hflat : (drainAux (f + 1) cr).1.flatten
          = p.bytes ++ (drainAux f cr2).1.flatten := by
        simp [drainAux, hn]
      have hrest : (drainAux (f + 1) cr).2 = (drainAux f cr2).2 := by
        simp [drainAux, hn]
      rw [hflat, List.length_append] at hfit
      obtain ⟨fwdP, hpush, hpend, hpos, hlen⟩ :=
        push_props fwd p (by omega)
      obtain ⟨fwd2, hrec, hpend2, hpos2, hlen2⟩ :=
        ih cr2 fwdP resp (by rw [hpos, hlen]; omega)
      refine ⟨fwd2, ?_, ?_, ?_, by rw [hlen2, hlen]⟩
      · simp only [drainPacketsAux, hn, hact p, hpush, hrec, hrest]
      · rw [hpend2, hpend, hflat, List.append_assoc]
      · rw [hpos2, hpos, hflat, List.length_append]
        omega

theorem drainPackets_forward_bounded (act : Packet → Action)
    (hact : ∀ p, act p = Action.Forward) (cr : ConnReader) (fwd resp : ConnWriter)
    (hfit : fwd.write_pos + (cr.drain).1.flatten.length ≤ fwd.write_buf.length) :
    ∃ fwd2, drainPackets act cr fwd resp = some ((cr.drain).2, fwd2, resp)
      ∧ fwd2.pending = fwd.pending ++ (cr.drain).1.flatten
      ∧ fwd2.write_pos = fwd.write_pos + (cr.drain).1.flatten.length
      ∧ fwd2.write_buf.length = fwd.write_buf.length :=
  drainPacketsAux_forward_bounded act hact cr.read_pos cr fwd resp hfit

/-- The packets still incomplete after n bytes of the packet stream ps
have arrived: packets are consumed greedily from the front. -/
def consume : List (List Nat) → Nat → List (List Nat)
  | [], _ => []
  | p :: ps, n => if n < p.length then p :: ps else consume ps (n - p.length)

/-- The number of buffered residual bytes after n bytes of the packet
stream ps have arrived. -/
def residLen : List (List Nat) → Nat → Nat
  | [], n => n
  | p :: ps, n => if n < p.length then n else residLen ps (n - p.length)

/-- Every chunk of the script fits the 4096-byte reader buffer next to
the residual bytes already buffered before it: the condition under which
the reference reader neither overflows nor reports the spurious close. -/
def ChunksFit : List (List Nat) → Nat → List (List Nat) → Prop
  | _, _, [] => True
  | rest, rlen, c :: cs =>
      rlen + c.length ≤ 4096 ∧
      ChunksFit (consume rest (rlen + c.length))
        (residLen rest (rlen + c.length)) cs

instance : ∀ rest rlen cs, Decidable (ChunksFit rest rlen cs)
  | _, _, [] => isTrue trivial
  | rest, rlen, c :: cs =>
      have : Decidable (ChunksFit (consume rest (rlen + c.length))
          (residLen rest (rlen + c.length)) cs) :=
        instDecidableChunksFit _ _ cs
      instDecidableAnd

theorem consume_residLen_append : ∀ (d rest2 : List (List Nat)) (r2 : List Nat),
    Rem rest2 r2 →
    consume (d ++ rest2) (d.flatten.length + r2.length) = rest2 ∧
    residLen (d ++ rest2) (d.flatten.length + r2.length) = r2.length := by
  intro d
  induction d with
  | nil =>
    intro rest2 r2 hrem
    simp only [List.nil_append, List.flatten_nil, List.length_nil, Nat.zero_add]
    rcases hrem with ⟨hrest, hr⟩ | ⟨q, qs, u, hrest, hlt, _⟩
    · rw [hrest, hr]
      exact ⟨rfl, rfl⟩
    · rw [hrest]
      constructor
      · rw [consume, if_pos hlt]
      · rw [residLen, if_pos hlt]
  | cons p d2 ih =>
    intro rest2 r2 hrem
    have hn : (p :: d2).flatten.length + r2.length
        = p.length + (d2.flatten.length + r2.length) := by
      rw [List.flatten_cons, List.length_append]
      omega
    have hge : ¬ (p.length + (d2.flatten.length + r2.length) < p.length) := by omega
    obtain ⟨ih1, ih2⟩ := ih rest2 r2 hrem
    constructor
    · rw [hn]
      show consume (p :: (d2 ++ rest2)) _ = rest2
      rw [consume, if_neg hge, Nat.add_sub_cancel_left]
      exact ih1
    · rw [hn]
      show residLen (p :: (d2 ++ rest2)) _ = r2.length
      rw [residLen, if_neg hge, Nat.add_sub_cancel_left]
      exact ih2

theorem run_forward_spec (h : PacketHandler)
    (hreq : ∀ p, h.handle_request p = .Forward)
    (hresp : ∀ p, h.handle_response p = .Forward) :
    ∀ (script : List (List Nat × List Nat × Nat × Nat))
      (st : Pipe) (restC restS : List (List Nat)) (rC rS : List Nat),
    st.client_reader.read_pos ≤ st.client_reader.read_buf.length →
    st.client_reader.read_buf.length = 4096 →
    st.server_reader.read_pos ≤ st.server_reader.read_buf.length →
    st.server_reader.read_buf.length = 4096 →
    st.client_writer.write_pos = 0 →
    st.client_writer.write_buf.length = 4096 →
    st.server_writer.write_pos = 0 →
    st.server_writer.write_buf.length = 4096 →
    (∀ p ∈ restC, WFpacket p) → (∀ p ∈ restS, WFpacket p) →
    Rem restC rC → Rem restS rS →
    st.client_reader.valid = rC → st.server_reader.valid = rS →
    rC ++ (script.map (fun e => e.1)).flatten = restC.flatten →
    rS ++ (script.map (fun e => e.2.1)).flatten = restS.flatten →
    ChunksFit restC rC.length (script.map (fun e => e.1)) →
    ChunksFit restS rS.length (script.map (fun e => e.2.1)) →
    (∀ e ∈ script, 4096 ≤ e.2.2.1) →
    (∀ e ∈ script, 4096 ≤ e.2.2.2) →
    ∃ final, Pipe.run h st (dataPolls script) = some final ∧
      final.server_delivered = st.server_delivered ++ restC.flatten ∧
      final.client_delivered = st.client_delivered ++ restS.flatten := by
  intro script
  induction script with
  | nil =>
    intro st restC restS rC rS _ _ _ _ _ _ _ _ _ _ hremC hremS hvC hvS
      hallC hallS _ _ _ _
    simp only [List.map_nil, List.flatten_nil, List.append_nil] at hallC hallS
    obtain ⟨hC1, _⟩ := rem_forces_nil hremC hallC
    obtain ⟨hS1, _⟩ := rem_forces_nil hremS hallS
    rw [hC1, hS1]
    exact ⟨st, rfl, by simp, by simp⟩
  | cons e rest ih =>
    intro st restC restS rC rS hleC hcapC hleS hcapS hcw0 hcwcap hsw0 hswcap
      hwfC hwfS hremC hremS hvC hvS hallC hallS HfitC HfitS haccC haccS
    rw [List.map_cons, List.flatten_cons] at hallC hallS
    rw [List.map_cons] at HfitC HfitS
    obtain ⟨hfit1C, hfit2C⟩ := HfitC
    obtain ⟨hfit1S, hfit2S⟩ := HfitS
    have hposC : st.client_reader.read_pos = rC.length := by
      rw [← valid_length st.client_reader hleC, hvC]
    have hposS : st.server_reader.read_pos = rS.length := by
      rw [← valid_length st.server_reader hleS, hvS]
    have hfitC : st.client_reader.read_pos + e.1.length
        ≤ st.client_reader.read_buf.length := by
      rw [hposC, hcapC]
      exact hfit1C
    have hfitS : st.server_reader.read_pos + e.2.1.length
        ≤ st.server_reader.read_buf.length := by
      rw [hposS, hcapS]
      exact hfit1S
    have hreadC : st.client_reader.read (dataEvents e.1)
        = (st.client_reader.fill e.1, .notReady) :=
      read_dataEvents st.client_reader e.1 hfitC
    have hreadS : st.server_reader.read (dataEvents e.2.1)
        = (st.server_reader.fill e.2.1, .notReady) :=
      read_dataEvents st.server_reader e.2.1 hfitS
    have hfleC := fill_le st.client_reader e.1 hleC hfitC
    have hfleS := fill_le st.server_reader e.2.1 hleS hfitS
    have hfvC : (st.client_reader.fill e.1).valid = rC ++ e.1 := by
      rw [fill_valid st.client_reader e.1 hleC hfitC, hvC]
    have hfvS : (st.server_reader.fill e.2.1).valid = rS ++ e.2.1 := by
      rw [fill_valid st.server_reader e.2.1 hleS hfitS, hvS]
    have hfcapC : (st.client_reader.fill e.1).read_buf.length = 4096 := by
      rw [fill_buf_length st.client_reader e.1 hleC hfitC, hcapC]
    have hfcapS : (st.server_reader.fill e.2.1).read_buf.length = 4096 := by
      rw [fill_buf_length st.server_reader e.2.1 hleS hfitS, hcapS]
    have hxC : (rC ++ e.1) ++ (rest.map (fun e2 => e2.1)).flatten
        = restC.flatten := by
      rw [List.append_assoc]
      exact hallC
    have hxS : (rS ++ e.2.1) ++ (rest.map (fun e2 => e2.2.1)).flatten
        = restS.flatten := by
      rw [List.append_assoc]
      exact hallS
    obtain ⟨dC, restC2, rC2, hdC, hx2C, hrem2C⟩ :=
      decomp_prefix restC (rC ++ e.1) _ hwfC hxC
    obtain ⟨dS, restS2, rS2, hdS, hx2S, hrem2S⟩ :=
      decomp_prefix restS (rS ++ e.2.1) _ hwfS hxS
    have hwfC2 : ∀ p ∈ restC2, WFpacket p := fun p hp =>
      hwfC p (by rw [hdC]; simp [hp])
    have hwfS2 : ∀ p ∈ restS2, WFpacket p := fun p hp =>
      hwfS p (by rw [hdS]; simp [hp])
    have hwfdC : ∀ p ∈ dC, WFpacket p := fun p hp =>
      hwfC p (by rw [hdC]; simp [hp])
    have hwfdS : ∀ p ∈ dS, WFpacket p := fun p hp =>
      hwfS p (by rw [hdS]; simp [hp])
    obtain ⟨hd1C, hd2C, hd3C, hd4C⟩ := drainAux_spec dC
      (st.client_reader.fill e.1).read_pos (st.client_reader.fill e.1) rC2
      (le_refl _) hfleC hwfdC (Rem.incomplete hrem2C hwfC2) (by rw [hfvC, hx2C])
    obtain ⟨hd1S, hd2S, hd3S, hd4S⟩ := drainAux_spec dS
      (st.server_reader.fill e.2.1).read_pos (st.server_reader.fill e.2.1) rS2
      (le_refl _) hfleS hwfdS (Rem.incomplete hrem2S hwfS2) (by rw [hfvS, hx2S])
    have hdrC : ((st.client_reader.fill e.1).drain).1 = dC := hd1C
    have hdrS : ((st.server_reader.fill e.2.1).drain).1 = dS := hd1S
    have hlenflatC : dC.flatten.length + rC2.length = rC.length + e.1.length := by
      have hl := congrArg List.length hx2C
      rw [List.length_append, List.length_append] at hl
      omega
    have hlenflatS : dS.flatten.length + rS2.length = rS.length + e.2.1.length := by
      have hl := congrArg List.length hx2S
      rw [List.length_append, List.length_append] at hl
      omega
    have hpushfitC : st.server_writer.write_pos +
        ((st.client_reader.fill e.1).drain).1.flatten.length
        ≤ st.server_writer.write_buf.length := by
      rw [hsw0, hswcap, hdrC]
      omega
    have hpushfitS : st.client_writer.write_pos +
        ((st.server_reader.fill e.2.1).drain).1.flatten.length
        ≤ st.client_writer.write_buf.length := by
      rw [hcw0, hcwcap, hdrS]
      omega
    obtain ⟨sw2, hdrainC, hsw2pend, hsw2pos, hsw2len⟩ :=
      drainPackets_forward_bounded h.handle_request hreq
        (st.client_reader.fill e.1) st.server_writer st.client_writer hpushfitC
    obtain ⟨cwF, hdrainS, hcwFpend, hcwFpos, hcwFlen⟩ :=
      drainPackets_forward_bounded h.handle_response hresp
        (st.server_reader.fill e.2.1) st.client_writer sw2 hpushfitS
    have hwfitC : cwF.write_pos ≤ e.2.2.1 := by
      have hacc := haccC e (by simp)
      rw [hcwFpos, hcw0, hdrS]
      omega
    have hwfitS : sw2.write_pos ≤ e.2.2.2 := by
      have hacc := haccS e (by simp)
      rw [hsw2pos, hsw0, hdrC]
      omega
    have hwriteC : cwF.write e.2.2.1 = (cwF.pending, ⟨cwF.write_buf, 0⟩) :=
      write_all cwF e.2.2.1 hwfitC
    have hwriteS : sw2.write e.2.2.2 = (sw2.pending, ⟨sw2.write_buf, 0⟩) :=
      write_all sw2 e.2.2.2 hwfitS
    have hpoll : Pipe.poll h st (dataEvents e.1) (dataEvents e.2.1)
        e.2.2.1 e.2.2.2 = some
        ({ client_reader := ((st.client_reader.fill e.1).drain).2
           client_writer := ⟨cwF.write_buf, 0⟩
           server_reader := ((st.server_reader.fill e.2.1).drain).2
           server_writer := ⟨sw2.write_buf, 0⟩
           client_delivered := st.client_delivered ++ cwF.pending
           server_delivered := st.server_delivered ++ sw2.pending
           client_write_shutdown := st.client_write_shutdown
           server_write_shutdown := st.server_write_shutdown }, .pending) := by
      unfold Pipe.poll
      simp only [hreadC, hdrainC, hreadS, hdrainS, hwriteC, hwriteS]
    have hconsC : consume restC (rC.length + e.1.length) = restC2 := by
      rw [hdC, ← hlenflatC]
      exact (consume_residLen_append dC restC2 rC2 hrem2C).1
    have hresidC : residLen restC (rC.length + e.1.length) = rC2.length := by
      rw [hdC, ← hlenflatC]
      exact (consume_residLen_append dC restC2 rC2 hrem2C).2
    have hconsS : consume restS (rS.length + e.2.1.length) = restS2 := by
      rw [hdS, ← hlenflatS]
      exact (consume_residLen_append dS restS2 rS2 hrem2S).1
    have hresidS : residLen restS (rS.length + e.2.1.length) = rS2.length := by
      rw [hdS, ← hlenflatS]
      exact (consume_residLen_append dS restS2 rS2 hrem2S).2
    rw [hconsC, hresidC] at hfit2C
    rw [hconsS, hresidS] at hfit2S
    have hall2C : rC2 ++ (rest.map (fun e2 => e2.1)).flatten = restC2.flatten := by
      have h0 : dC.flatten ++ (rC2 ++ (rest.map (fun e2 => e2.1)).flatten)
          = dC.flatten ++ restC2.flatten := by
        rw [← List.append_assoc, ← hx2C, hxC, hdC, List.flatten_append]
      exact List.append_cancel_left h0
    have hall2S : rS2 ++ (rest.map (fun e2 => e2.2.1)).flatten = restS2.flatten := by
      have h0 : dS.flatten ++ (rS2 ++ (rest.map (fun e2 => e2.2.1)).flatten)
          = dS.flatten ++ restS2.flatten := by
        rw [← List.append_assoc, ← hx2S, hxS, hdS, List.flatten_append]
      exact List.append_cancel_left h0
    obtain ⟨final, hrunF, hfsd, hfcd⟩ := ih
      { client_reader := ((st.client_reader.fill e.1).drain).2
        client_writer := ⟨cwF.write_buf, 0⟩
        server_reader := ((st.server_reader.fill e.2.1).drain).2
        server_writer := ⟨sw2.write_buf, 0⟩
        client_delivered := st.client_delivered ++ cwF.pending
        server_delivered := st.server_delivered ++ sw2.pending
        client_write_shutdown := st.client_write_shutdown
        server_write_shutdown := st.server_write_shutdown }
      restC2 restS2 rC2 rS2
      hd3C (by show ((st.client_reader.fill e.1).drain).2.read_buf.length = 4096
               exact hd4C.trans hfcapC)
      hd3S (by show ((st.server_reader.fill e.2.1).drain).2.read_buf.length = 4096
               exact hd4S.trans hfcapS)
      rfl (by show cwF.write_buf.length = 4096
              rw [hcwFlen, hcwcap])
      rfl (by show sw2.write_buf.length = 4096
              rw [hsw2len, hswcap])
      hwfC2 hwfS2 hrem2C hrem2S hd2C hd2S hall2C hall2S hfit2C hfit2S
      (fun e2 he2 => haccC e2 (by simp [he2]))
      (fun e2 he2 => haccS e2 (by simp [he2]))
    refine ⟨final, ?_, ?_, ?_⟩
    · show Pipe.run h st
        ((⟨dataEvents e.1, dataEvents e.2.1, e.2.2.1, e.2.2.2⟩ : PollIn)
          :: dataPolls rest) = some final
      rw [Pipe.run, hpoll]
      exact hrunF
    · rw [hfsd]
      have hsdel : sw2.pending = dC.flatten := by
        rw [hsw2pend, pending_pos_zero st.server_writer hsw0,
          List.nil_append, hdrC]
      show st.server_delivered ++ sw2.pending ++ restC2.flatten = _
      rw [hsdel, List.append_assoc, ← List.flatten_append, ← hdC]
    · rw [hfcd]
      have hcdel : cwF.pending = dS.flatten := by
        rw [hcwFpend, pending_pos_zero st.client_writer hcw0,
          List.nil_append, hdrS]
      show st.client_delivered ++ cwF.pending ++ restS2.flatten = _
      rw [hcdel, List.append_assoc, ← List.flatten_append, ← hdS]

theorem poll_some_shutdown (h : PacketHandler) (st : Pipe) (cin sin : List SockRead)
    (ca sa : Nat) (res : Pipe × PollRes)
    (hpoll : Pipe.poll h st cin sin ca sa = some res) :
    res.2 = (match (st.client_reader.read cin).2 with
      | .err e => PollRes.err e
      | .notReady => PollRes.pending) ∧
    res.1.server_write_shutdown = (match (st.client_reader.read cin).2 with
      | .err _ => true
      | .notReady => st.server_write_shutdown) ∧
    res.1.client_write_shutdown = (match (st.server_reader.read sin).2 with
      | .err _ => true
      | .notReady => st.client_write_shutdown) := by
  unfold Pipe.poll at hpoll
  rcases hcr : st.client_reader.read cin with ⟨cr2, cres⟩
  rw [hcr] at hpoll
  simp only [] at hpoll
  rcases hd1 : drainPackets h.handle_request cr2 st.server_writer st.client_writer
    with _ | ⟨⟨cr3, sw2, cw2⟩⟩
  · rw [hd1] at hpoll
    simp at hpoll
  · rw [hd1] at hpoll
    simp only [] at hpoll
    rcases hsr : st.server_reader.read sin with ⟨sr2, sres⟩
    rw [hsr] at hpoll
    simp only [] at hpoll
    rcases hd2 : drainPackets h.handle_response sr2 cw2 sw2
      with _ | ⟨⟨sr3, cw3, sw3⟩⟩
    · rw [hd2] at hpoll
      simp at hpoll
    · rw [hd2] at hpoll
      simp only [] at hpoll
      cases cres with
      | notReady =>
        simp only [] at hpoll
        injection hpoll with hres
        rw [← hres]
        cases sres <;> exact ⟨rfl, rfl, rfl⟩
      | err e =>
        simp only [] at hpoll
        injection hpoll with hres
        rw [← hres]
        cases sres <;> exact ⟨rfl, rfl, rfl⟩

/-- C4 amended: whenever a poll completes without the push panic, a
client-side ConnectionClosed makes that same poll half-close the server
write side and resolve the pipe task with the error (the drains and
flushes of that pass still run first); a server-side ConnectionClosed
alone only half-closes the client write side and the poll still yields
pending, so the pipe keeps servicing the client-to-server direction on
later polls. -/
theorem pipe_close_semantics :
    (∀ (h : PacketHandler) (st : Pipe) (cin sin : List SockRead) (ca sa : Nat)
        (res : Pipe × PollRes),
      (st.client_reader.read cin).2 = .err "connection closed" →
      Pipe.poll h st cin sin ca sa = some res →
      res.2 = PollRes.err "connection closed" ∧
        res.1.server_write_shutdown = true) ∧
    (∀ (h : PacketHandler) (st : Pipe) (cin sin : List SockRead) (ca sa : Nat)
        (res : Pipe × PollRes),
      (st.client_reader.read cin).2 = .notReady →
      (st.server_reader.read sin).2 = .err "connection closed" →
      Pipe.poll h st cin sin ca sa = some res →
      res.2 = PollRes.pending ∧ res.1.client_write_shutdown = true) := by
  constructor
  · intro h st cin sin ca sa res hread hpoll
    obtain ⟨h1, h2, _⟩ := poll_some_shutdown h st cin sin ca sa res hpoll
    rw [hread] at h1 h2
    exact ⟨h1, h2⟩
  · intro h st cin sin ca sa res hreadC hreadS hpoll
    obtain ⟨h1, _, h3⟩ := poll_some_shutdown h st cin sin ca sa res hpoll
    rw [hreadC] at h1
    rw [hreadS] at h3
    exact ⟨h1, h3⟩

/-- A pipe state over empty buffers, a small instance to evaluate the
close semantics on. -/
def smallPipe : Pipe :=
  ⟨⟨[], 0⟩, ⟨[], 0⟩, ⟨[], 0⟩, ⟨[], 0⟩, [], [], false, false⟩

/-- C4 witness: on the empty-buffer pipe, a client-side zero-byte read
resolves the poll with the ConnectionClosed error and the server write
side half-closed, while a server-side one leaves the poll pending with
the client write side half-closed. -/
theorem pipe_close_semantics_witness :
    (((⟨⟨[], 0⟩, ⟨[], 0⟩, ⟨[], 0⟩, ⟨[], 0⟩, [], [], false, true⟩,
        PollRes.err "connection closed") : Pipe × PollRes).2
        = PollRes.err "connection closed" ∧
      ((⟨⟨[], 0⟩, ⟨[], 0⟩, ⟨[], 0⟩, ⟨[], 0⟩, [], [], false, true⟩,
        PollRes.err "connection closed") : Pipe × PollRes).1.server_write_shutdown
        = true) ∧
    (((⟨⟨[], 0⟩, ⟨[], 0⟩, ⟨[], 0⟩, ⟨[], 0⟩, [], [], true, false⟩,
        PollRes.pending) : Pipe × PollRes).2 = PollRes.pending ∧
      ((⟨⟨[], 0⟩, ⟨[], 0⟩, ⟨[], 0⟩, ⟨[], 0⟩, [], [], true, false⟩,
        PollRes.pending) : Pipe × PollRes).1.client_write_shutdown = true) :=
  ⟨pipe_close_semantics.1 forwardHandler smallPipe [SockRead.readable []] [] 0 0
      (⟨⟨[], 0⟩, ⟨[], 0⟩, ⟨[], 0⟩, ⟨[], 0⟩, [], [], false, true⟩,
        PollRes.err "connection closed") (by decide) (by decide),
   pipe_close_semantics.2 forwardHandler smallPipe [] [SockRead.readable []] 0 0
      (⟨⟨[], 0⟩, ⟨[], 0⟩, ⟨[], 0⟩, ⟨[], 0⟩, [], [], true, false⟩,
        PollRes.pending) (by decide) (by decide) (by decide)⟩

/-- C4 counterexample: the first poll in which the client read reports
ConnectionClosed resolves the pipe task with that error even though the
server side is still open; the later poll carrying a server response is
never serviced, so its bytes are never delivered to the client. -/
theorem pipe_close_counterexample :
    (∃ res, Pipe.poll forwardHandler Pipe.new [SockRead.readable []] [] 4096 4096
        = some res ∧ res.2 = PollRes.err "connection closed") ∧
    (Pipe.run forwardHandler Pipe.new
        [⟨[SockRead.readable []], [], 4096, 4096⟩,
         ⟨[], [SockRead.readable [3, 0, 0, 1, 10, 20, 30]], 4096, 4096⟩]).map
      Pipe.client_delivered = some [] := by
  have hread : ConnReader.new.read [SockRead.readable []]
      = (ConnReader.new, .err "connection closed") :=
    read_peer_closed ConnReader.new []
  have hdrain : ∀ act : Packet → Action,
      drainPackets act ConnReader.new ConnWriter.new ConnWriter.new
        = some (ConnReader.new, ConnWriter.new, ConnWriter.new) :=
    fun act => drain_pos_zero act ConnReader.new ConnWriter.new ConnWriter.new rfl
  have hwrite : ConnWriter.new.write 4096 = ([], ConnWriter.new) :=
    write_pos_zero ConnWriter.new 4096 rfl
  have hpoll1 : Pipe.poll forwardHandler Pipe.new [SockRead.readable []] [] 4096 4096
      = some (⟨ConnReader.new, ConnWriter.new, ConnReader.new, ConnWriter.new,
          [], [], false, true⟩, .err "connection closed") := by
    unfold Pipe.poll
    simp only [Pipe.new, hread, hdrain, read_nil, hwrite, List.append_nil]
  refine ⟨⟨_, hpoll1, rfl⟩, ?_⟩
  have hrun : Pipe.run forwardHandler Pipe.new
      [⟨[SockRead.readable []], [], 4096, 4096⟩,
       ⟨[], [SockRead.readable [3, 0, 0, 1, 10, 20, 30]], 4096, 4096⟩]
      = some ⟨ConnReader.new, ConnWriter.new, ConnReader.new, ConnWriter.new,
          [], [], false, true⟩ := by
    rw [Pipe.run, hpoll1]
  rw [hrun]
  rfl

/-- C2 amended: with a handler that forwards every packet, the bytes the
pipe writes to the server socket are exactly the bytes received from the
client, and symmetrically for the other direction, provided the streams
stay inside the fixed 4096-byte buffers of the reference: every chunk
fits next to the residual bytes already buffered (ChunksFit) and every
write poll accepts the pending bytes.  Without those provisos the
reference pipe panics in push or misreports ConnectionClosed (see the
counterexample). -/
theorem pipe_pass_through (h : PacketHandler)
    (hreq : ∀ p, h.handle_request p = .Forward)
    (hresp : ∀ p, h.handle_response p = .Forward)
    (script : List (List Nat × List Nat × Nat × Nat))
    (cps sps : List (List Nat))
    (hwfc : ∀ p ∈ cps, WFpacket p) (hwfs : ∀ p ∈ sps, WFpacket p)
    (hcj : (script.map (fun e => e.1)).flatten = cps.flatten)
    (hsj : (script.map (fun e => e.2.1)).flatten = sps.flatten)
    (hfitc : ChunksFit cps 0 (script.map (fun e => e.1)))
    (hfits : ChunksFit sps 0 (script.map (fun e => e.2.1)))
    (haccC : ∀ e ∈ script, 4096 ≤ e.2.2.1)
    (haccS : ∀ e ∈ script, 4096 ≤ e.2.2.2) :
    ∃ final, Pipe.run h Pipe.new (dataPolls script) = some final ∧
      final.server_delivered = (script.map (fun e => e.1)).flatten ∧
      final.client_delivered = (script.map (fun e => e.2.1)).flatten := by
  have hcap : ConnReader.new.read_buf.length = 4096 := by
    show (List.replicate 4096 0).length = 4096
    rw [List.length_replicate]
  have hwcap : ConnWriter.new.write_buf.length = 4096 := by
    show (List.replicate 4096 0).length = 4096
    rw [List.length_replicate]
  obtain ⟨final, h1, h2, h3⟩ := run_forward_spec h hreq hresp script Pipe.new
    cps sps [] [] (Nat.zero_le _) hcap (Nat.zero_le _) hcap rfl hwcap rfl hwcap
    hwfc hwfs (rem_nil cps hwfc) (rem_nil sps hwfs) rfl rfl
    (by simpa using hcj) (by simpa using hsj) hfitc hfits haccC haccS
  refine ⟨final, h1, ?_, ?_⟩
  · rw [h2, ← hcj]
    rfl
  · rw [h3, ← hsj]
    rfl

/-- C2 witness: one poll carrying a ComPing request and a short server
response, both fully forwarded. -/
theorem pipe_pass_through_witness :
    ∃ final, Pipe.run forwardHandler Pipe.new
        (dataPolls [([1, 0, 0, 0, 14], [3, 0, 0, 1, 10, 20, 30], 4096, 4096)])
        = some final ∧
      final.server_delivered
        = ((([([1, 0, 0, 0, 14], [3, 0, 0, 1, 10, 20, 30], 4096, 4096)] :
            List (List Nat × List Nat × Nat × Nat)).map (fun e => e.1)).flatten) ∧
      final.client_delivered
        = ((([([1, 0, 0, 0, 14], [3, 0, 0, 1, 10, 20, 30], 4096, 4096)] :
            List (List Nat × List Nat × Nat × Nat)).map (fun e => e.2.1)).flatten) :=
  pipe_pass_through forwardHandler (fun _ => rfl) (fun _ => rfl)
    [([1, 0, 0, 0, 14], [3, 0, 0, 1, 10, 20, 30], 4096, 4096)]
    [[1, 0, 0, 0, 14]] [[3, 0, 0, 1, 10, 20, 30]]
    (by decide) (by decide) (by decide) (by decide) (by decide) (by decide)
    (by decide) (by decide)

/-- C2 counterexample: a single well-formed 4100-byte packet, split into
a 4096-byte chunk and a 4-byte chunk, is received from the client by a
forward-all pipe, yet nothing is ever delivered to the server: the first
chunk fills the fixed reader buffer without completing the packet, and
the next poll reads into the empty slice, misreports ConnectionClosed
and resolves the pipe task. -/
theorem pipe_pass_through_counterexample :
    WFpacket (0 :: 16 :: 0 :: 0 :: List.replicate 4096 9) ∧
    ((0 :: 16 :: 0 :: 0 :: List.replicate 4092 9) ++ [9, 9, 9, 9]
      = 0 :: 16 :: 0 :: 0 :: List.replicate 4096 9) ∧
    (Pipe.run forwardHandler Pipe.new
        [⟨[SockRead.readable (0 :: 16 :: 0 :: 0 :: List.replicate 4092 9)],
          [], 4096, 4096⟩,
         ⟨[SockRead.readable [9, 9, 9, 9]], [], 4096, 4096⟩]).map
      Pipe.server_delivered = some [] := by
  have hPlen : (0 :: 16 :: 0 :: 0 :: List.replicate 4096 (9 : Nat)).length = 4100 := by
    rw [List.length_cons, List.length_cons, List.length_cons, List.length_cons,
      List.length_replicate]
  have hPparse : parse_packet_length (0 :: 16 :: 0 :: 0 :: List.replicate 4096 9)
      = 4096 := by
    rw [parse_packet_length_bytes 0 16 0 (0 :: List.replicate 4096 9)
      (by norm_num) (by norm_num) (by norm_num)]
  refine ⟨⟨by rw [hPlen]; omega, by rw [hPlen, hPparse]⟩, ?_, ?_⟩
  · rw [List.cons_append, List.cons_append, List.cons_append, List.cons_append,
      show ([9, 9, 9, 9] : List Nat) = List.replicate 4 9 from rfl,
      ← List.replicate_add]
  · have f1 : (0 :: 16 :: 0 :: 0 :: List.replicate 4092 (9 : Nat)).length = 4096 := by
      rw [List.length_cons, List.length_cons, List.length_cons, List.length_cons,
        List.length_replicate]
    have f2 : ConnReader.new.read_buf.length = 4096 := by
      show (List.replicate 4096 0).length = 4096
      rw [List.length_replicate]
    have hfit1 : ConnReader.new.read_pos
        + (0 :: 16 :: 0 :: 0 :: List.replicate 4092 (9 : Nat)).length
        ≤ ConnReader.new.read_buf.length := by
      rw [f1, f2]
      show 0 + 4096 ≤ 4096
      omega
    have hread1 : ConnReader.new.read
        [SockRead.readable (0 :: 16 :: 0 :: 0 :: List.replicate 4092 9)]
        = (ConnReader.new.fill (0 :: 16 :: 0 :: 0 :: List.replicate 4092 9),
           .notReady) :=
      read_one_readable ConnReader.new _ (List.cons_ne_nil _ _) hfit1
    have fpos : (ConnReader.new.fill
        (0 :: 16 :: 0 :: 0 :: List.replicate 4092 9)).read_pos = 4096 := by
      rw [fill_pos, show ConnReader.new.read_pos = 0 from rfl, f1]
    have fblen : (ConnReader.new.fill
        (0 :: 16 :: 0 :: 0 :: List.replicate 4092 9)).read_buf.length = 4096 := by
      rw [fill_buf_length ConnReader.new _ (by rw [f2]; exact Nat.zero_le _) hfit1]
      exact f2
    have hbufF : (ConnReader.new.fill
        (0 :: 16 :: 0 :: 0 :: List.replicate 4092 9)).read_buf
        = (List.replicate 4096 0).take 0
          ++ (0 :: 16 :: 0 :: 0 :: List.replicate 4092 9)
          ++ (List.replicate 4096 0).drop (ConnReader.new.read_pos
            + (0 :: 16 :: 0 :: 0 :: List.replicate 4092 (9 : Nat)).length) := rfl
    rw [List.take_zero, List.nil_append] at hbufF
    have hp3 : (ConnReader.new.fill
        (0 :: 16 :: 0 :: 0 :: List.replicate 4092 9)).read_buf.take 3
        = [0, 16, 0] := by
      rw [hbufF, List.take_append_of_le_length (by rw [f1]; omega)]
      rfl
    have hparse : parse_packet_length (ConnReader.new.fill
        (0 :: 16 :: 0 :: 0 :: List.replicate 4092 9)).read_buf = 4096 := by
      have hpt := parse_take3 (show (ConnReader.new.fill
          (0 :: 16 :: 0 :: 0 :: List.replicate 4092 9)).read_buf.take 3
          = ([0, 16, 0] : List Nat).take 3 by rw [hp3]; rfl)
      rw [hpt]
      decide
    have hnext : (ConnReader.new.fill
        (0 :: 16 :: 0 :: 0 :: List.replicate 4092 9)).next
        = (none, ConnReader.new.fill (0 :: 16 :: 0 :: 0 :: List.replicate 4092 9)) :=
      next_none_incomplete _ (by rw [fpos]; omega) (by rw [fpos, hparse]; omega)
    have hdrain1 : ∀ act : Packet → Action, drainPackets act
        (ConnReader.new.fill (0 :: 16 :: 0 :: 0 :: List.replicate 4092 9))
        ConnWriter.new ConnWriter.new
        = some (ConnReader.new.fill (0 :: 16 :: 0 :: 0 :: List.replicate 4092 9),
            ConnWriter.new, ConnWriter.new) := by
      intro act
      exact drain_next_none _ hnext _ act _ _
    have hdrain0 : ∀ act : Packet → Action,
        drainPackets act ConnReader.new ConnWriter.new ConnWriter.new
          = some (ConnReader.new, ConnWriter.new, ConnWriter.new) :=
      fun act => drain_pos_zero act ConnReader.new ConnWriter.new ConnWriter.new rfl
    have hwrite : ConnWriter.new.write 4096 = ([], ConnWriter.new) :=
      write_pos_zero ConnWriter.new 4096 rfl
    have hpoll1 : Pipe.poll forwardHandler Pipe.new
        [SockRead.readable (0 :: 16 :: 0 :: 0 :: List.replicate 4092 9)] []
        4096 4096
        = some (⟨ConnReader.new.fill (0 :: 16 :: 0 :: 0 :: List.replicate 4092 9),
            ConnWriter.new, ConnReader.new, ConnWriter.new, [], [], false, false⟩,
            .pending) := by
      unfold Pipe.poll
      simp only [Pipe.new, hread1, hdrain1, read_nil, hdrain0, hwrite,
        List.append_nil]
    have hread2 : (ConnReader.new.fill
        (0 :: 16 :: 0 :: 0 :: List.replicate 4092 9)).read
        [SockRead.readable [9, 9, 9, 9]]
        = (ConnReader.new.fill (0 :: 16 :: 0 :: 0 :: List.replicate 4092 9),
           .err "connection closed") :=
      read_space_zero _ _ _ (by rw [fblen, fpos])
    have hpoll2 : Pipe.poll forwardHandler
        ⟨ConnReader.new.fill (0 :: 16 :: 0 :: 0 :: List.replicate 4092 9),
          ConnWriter.new, ConnReader.new, ConnWriter.new, [], [], false, false⟩
        [SockRead.readable [9, 9, 9, 9]] [] 4096 4096
        = some (⟨ConnReader.new.fill (0 :: 16 :: 0 :: 0 :: List.replicate 4092 9),
            ConnWriter.new, ConnReader.new, ConnWriter.new, [], [], false, true⟩,
            .err "connection closed") := by
      unfold Pipe.poll
      simp only [hread2, hdrain1, read_nil, hdrain0, hwrite, List.append_nil]
    have hrun : Pipe.run forwardHandler Pipe.new
        [⟨[SockRead.readable (0 :: 16 :: 0 :: 0 :: List.replicate 4092 9)],
          [], 4096, 4096⟩,
         ⟨[SockRead.readable [9, 9, 9, 9]], [], 4096, 4096⟩]
        = some ⟨ConnReader.new.fill (0 :: 16 :: 0 :: 0 :: List.replicate 4092 9),
            ConnWriter.new, ConnReader.new, ConnWriter.new, [], [], false, true⟩ := by
      simp only [Pipe.run, hpoll1, hpoll2]
    rw [hrun]
    rfl

end MySqlProxy
